import Mathlib

/-!
Verification of the caret / selection / line-store core of the text-edit
widgets (`TextEdit`, `MultilineEntry`) and of the `Dock` / `Layouts`
components of this repository.

Text is modelled at the byte level: a line's text (`std::string`) is a
`List Nat` of byte values, and the widget's flat text is the newline-joined
byte list.  Caret coordinates are mathematical integers, mirroring the
C++ `int` fields (overflow is undefined behaviour in the source and is not
modelled).  The `m_lines` back-pointer held by a C++ `Caret` is passed
explicitly as a `List LineRec` argument; a caret whose pointer is null in
the source is represented by range-invalid coordinates (the source only
ever null-clears carets together with zeroing `line`/`pos`).
-/

namespace Aseprite

/-- A byte string (`std::string` contents). -/
abbrev Ln : Type := List Nat

/-- The newline byte. -/
def NL : Nat := 10

/-- One record of the line store: `TextEdit::Line` (`text` plus the
line-index field `i`; the shaped-text blob and cached metrics are derived
cache data and carry no information about the properties proved here). -/
structure LineRec where
  text : Ln
  i : Int
deriving DecidableEq, Repr

/-- Default line record used for out-of-range indexing (the source would
have undefined behaviour there; all theorems stay in range). -/
def dfltLine : LineRec := ⟨[], 0⟩

/-- `TextEdit::Caret` / `MultilineEntry::Caret`: a `(line, pos)` cursor. -/
structure Caret where
  line : Int
  pos : Int
deriving DecidableEq, Repr

/-- Text of the line at (positional) index `i`, i.e. `(*m_lines)[line].text`. -/
def lineTextAt (lines : List LineRec) (i : Int) : Ln :=
  if 0 ≤ i then (lines.getD i.toNat dfltLine).text else []

/-- Length (as `Int`) of the line at index `i`. -/
def lineLen (lines : List LineRec) (i : Int) : Int :=
  (lineTextAt lines i).length

/-- `Caret::left(byWord = false)` (textedit.h:83-101): move one position
left, wrapping to the end of the previous line; returns `false` and leaves
the caret at `(0, 0)`-clamped position when already at the very start. -/
def Caret.left (lines : List LineRec) (c : Caret) : Bool × Caret :=
  let p := c.pos - 1
  if p < 0 then
    if c.line = 0 then (false, { c with pos := 0 })
    else (true, { line := c.line - 1, pos := lineLen lines (c.line - 1) })
  else (true, { c with pos := p })

/-- `Caret::right(byWord = false)` (textedit.h:119-137): move one position
right, wrapping to the start of the next line; returns `false` (and undoes
the move) at the very end of the text. -/
def Caret.right (lines : List LineRec) (c : Caret) : Bool × Caret :=
  let p := c.pos + 1
  if p > lineLen lines c.line then
    if c.line = (lines.length : Int) - 1 then (false, { c with pos := p - 1 })
    else (true, { line := c.line + 1, pos := 0 })
  else (true, { c with pos := p })

/-- Validity of a caret against a line store (`Caret::isValid`, range part:
`0 <= line < lineCount` and `0 <= pos <= length(line)`). -/
def caretValid (lines : List LineRec) (c : Caret) : Prop :=
  0 ≤ c.line ∧ c.line < (lines.length : Int) ∧ 0 ≤ c.pos ∧ c.pos ≤ lineLen lines c.line

instance (lines : List LineRec) (c : Caret) : Decidable (caretValid lines c) := by
  unfold caretValid; infer_instance

/-- Lexicographic order on carets (the order the spec asserts for
selection normalization). -/
def lexLe (a b : Caret) : Prop :=
  a.line < b.line ∨ (a.line = b.line ∧ a.pos ≤ b.pos)

instance (a b : Caret) : Decidable (lexLe a b) := by
  unfold lexLe; infer_instance

/-- Strict lexicographic order on carets. -/
def lexLt (a b : Caret) : Prop :=
  a.line < b.line ∧ True ∨ (a.line = b.line ∧ a.pos < b.pos)

instance (a b : Caret) : Decidable (lexLt a b) := by
  unfold lexLt; infer_instance

/-- The `line + pos` sum order that the source actually compares by in
`Selection::to` and `Caret::operator>`. -/
def sumLe (a b : Caret) : Prop :=
  a.line + a.pos ≤ b.line + b.pos

instance (a b : Caret) : Decidable (sumLe a b) := by
  unfold sumLe; infer_instance

/-- `TextEdit::Selection` / `MultilineEntry::Selection`: a pair of carets.
The C++ field `end` is a reserved word in Lean and is rendered `stop`. -/
structure Selection where
  start : Caret
  stop : Caret
deriving DecidableEq, Repr

/-- `Selection::isEmpty` (same in both revisions). -/
def Selection.isEmpty (s : Selection) : Prop :=
  s.start.line = s.stop.line ∧ s.start.pos = s.stop.pos

instance (s : Selection) : Decidable s.isEmpty := by
  unfold Selection.isEmpty; infer_instance

namespace TextEdit

/-- `TextEdit::Selection::to` (textedit.h:274-283): if the caret sorts
before `start` in the `line + pos` sum order, it becomes the new `start`
and `end` collapses onto it; otherwise it becomes the new `end`. -/
def Selection.to (s : Selection) (c : Caret) : Selection :=
  if c.line + c.pos < s.start.line + s.start.pos then { start := c, stop := c }
  else { s with stop := c }

/-- `TextEdit::Caret::operator>` (textedit.h:245-249).  The source
compares `(line + pos) > (other.line + pos)` on distinct lines — both
occurrences of the unqualified `pos` are `this->pos`, reproduced here. -/
def Caret.gtOp (a b : Caret) : Bool :=
  if a.line = b.line then decide (a.pos > b.pos)
  else decide (a.line + a.pos > b.line + a.pos)

end TextEdit

namespace MultilineEntry

/-- `MultilineEntry::Selection::to` (multiline_entry.h:259-265): like the
`TextEdit` revision but without collapsing `end` when re-anchoring
`start`. -/
def Selection.to (s : Selection) (c : Caret) : Selection :=
  if c.line + c.pos < s.start.line + s.start.pos then { s with start := c }
  else { s with stop := c }

/-- `MultilineEntry::Caret::operator>` (multiline_entry.h:233-237);
textually the same comparison as the `TextEdit` revision. -/
def Caret.gtOp (a b : Caret) : Bool :=
  if a.line = b.line then decide (a.pos > b.pos)
  else decide (a.line + a.pos > b.line + a.pos)

end MultilineEntry

/-! ### The line store and the flat text -/

/-- Join byte lines with the newline byte (the widget's flattened text
seen through `Line` records). -/
def joinNl : List Ln → Ln
  | [] => []
  | [t] => t
  | t :: t' :: ts => t ++ NL :: joinNl (t' :: ts)

/-- Modelled from the spec: `base::split_string(text, parts, "\n")` (the
`base` library is not under `src/`) — per the spec the line store is
"rebuilt from a flat string" whose source of truth is "the flat
newline-joined string", i.e. the standard split at every newline byte;
the empty string yields one empty piece so that joining inverts it. -/
def splitNl : Ln → List Ln
  | [] => [[]]
  | b :: rest =>
    if b = NL then [] :: splitNl rest
    else
      match splitNl rest with
      | [] => [[b]]
      | t :: ts => (b :: t) :: ts

/-- The loop body of `TextEdit::onSetText` (textedit.cpp:663-675): each
piece becomes a `Line` whose `i` is the store's size at push time. -/
def buildLinesFrom : List Ln → Int → List LineRec
  | [], _ => []
  | t :: ts, k => ⟨t, k⟩ :: buildLinesFrom ts (k + 1)

/-- `TextEdit::onSetText` (textedit.cpp:649-687), line-store part:
re-split the widget's flat text into `Line` records indexed from 0. -/
def buildLines (t : Ln) : List LineRec :=
  buildLinesFrom (splitNl t) 0

/-- `Caret::absolutePos` (textedit.h:171-184): walk the line store until
the record whose `i` field equals the caret's line, accumulating
`length + 1` for every earlier line. -/
def absolutePos (lines : List LineRec) (c : Caret) : Int :=
  match lines with
  | [] => 0
  | l :: ls => if l.i = c.line then c.pos else (l.text.length : Int) + 1 + absolutePos ls c

/-- Loop of `Caret::advanceBy` (textedit.h:192-212).  The C++ loop runs
the index `i` from the entry value of `line` while `i < m_lines->size()`;
`i` and `line` move in lockstep on every non-returning iteration, so the
remaining iteration count is the explicit fuel here. -/
def advanceLoop (lines : List LineRec) : Nat → Caret → Int → Caret
  | 0, c, _ => c
  | fuel + 1, c, remaining =>
    let remainingInLine := lineLen lines c.line - c.pos
    if remaining > remainingInLine then
      advanceLoop lines fuel ⟨c.line + 1, 0⟩ (remaining - remainingInLine)
    else ⟨c.line, c.pos + remaining⟩

/-- `Caret::advanceBy(characters)` (textedit.h:192-212). -/
def Caret.advanceBy (lines : List LineRec) (c : Caret) (n : Int) : Caret :=
  advanceLoop lines ((lines.length : Int) - c.line).toNat c n

/-- `std::string::insert(k, u)` on a byte list (in-range in all uses). -/
def insertAtL (s : Ln) (k : Int) (u : Ln) : Ln :=
  s.take k.toNat ++ u ++ s.drop k.toNat

/-- `std::string::erase(begin + a, begin + b)` on a byte list. -/
def eraseRangeL (s : Ln) (a b : Int) : Ln :=
  s.take a.toNat ++ s.drop b.toNat

/-- Total byte length of the texts of a list of line records. -/
def textLenSum : List LineRec → Nat
  | [] => 0
  | l :: ls => l.text.length + textLenSum ls

/-- Patch the line record at (positional) index `i`
(`m_lines[i] = ...`); out of range leaves the store unchanged (the
source would have undefined behaviour there). -/
def modifyLine (ls : List LineRec) (i : Nat) (f : LineRec → LineRec) : List LineRec :=
  match ls, i with
  | [], _ => []
  | l :: ls, 0 => f l :: ls
  | l :: ls, n + 1 => l :: modifyLine ls n f

/-- Modelled from the spec: `base::codepoint_to_utf8` lives in the `base`
library, which is not under `src/`; per the spec it produces "the UTF-8
encoding of codepoint c (possibly several bytes)", i.e. the standard
1-to-4-byte UTF-8 sequence. -/
def codepointToUtf8 (c : Nat) : Ln :=
  if c < 0x80 then [c]
  else if c < 0x800 then [0xC0 + c / 64, 0x80 + c % 64]
  else if c < 0x10000 then [0xE0 + c / 4096, 0x80 + (c / 64) % 64, 0x80 + c % 64]
  else [0xF0 + c / 262144, 0x80 + (c / 4096) % 64, 0x80 + (c / 64) % 64, 0x80 + c % 64]

/-! ### The `TextEdit` widget state and its editing operations -/

/-- The `TextEdit` widget state the claims are about: the flat text
(`Widget::text()`), the line store, the caret and the selection. -/
structure TextEditState where
  flat : Ln
  lines : List LineRec
  caret : Caret
  sel : Selection
deriving DecidableEq, Repr

/-- `Selection::isValid` (textedit.h:272): both carets valid. -/
def Selection.isValidOn (lines : List LineRec) (s : Selection) : Prop :=
  caretValid lines s.start ∧ caretValid lines s.stop

instance (lines : List LineRec) (s : Selection) : Decidable (s.isValidOn lines) := by
  unfold Selection.isValidOn; infer_instance

/-- `Selection::clear()`: both carets reset to the default caret
(`line = pos = 0`, unbound). -/
def emptySelection : Selection := ⟨⟨0, 0⟩, ⟨0, 0⟩⟩

/-- `Widget::setText` as observed by `TextEdit`: store the flat text and
run `onSetText`'s full line rebuild. -/
def setText (st : TextEditState) (t : Ln) : TextEditState :=
  { st with flat := t, lines := buildLines t }

/-- `Widget::setTextQuiet`: store the flat text without rebuilding. -/
def setTextQuiet (st : TextEditState) (t : Ln) : TextEditState :=
  { st with flat := t }

/-- `TextEdit::insertCharacter` (textedit.cpp:565-577): patch the caret's
line at the caret's byte position, splice the same bytes into the flat
text at the caret's absolute position (computed after the line patch, as
in the source), and advance `pos` by one. -/
def insertCharacter (st : TextEditState) (ch : Nat) : TextEditState :=
  let u := codepointToUtf8 ch
  let lines' := modifyLine st.lines st.caret.line.toNat
    (fun l => { l with text := insertAtL l.text st.caret.pos u })
  let newText := insertAtL st.flat (absolutePos lines' st.caret) u
  { setTextQuiet { st with lines := lines' } newText with
      caret := ⟨st.caret.line, st.caret.pos + 1⟩ }

/-- `TextEdit::deleteSelection` (textedit.cpp:579-604): no-op on an empty
or invalid selection; otherwise erase the selected absolute range from
the flat text, with a single-line fast path that patches one line record
(plus `setTextQuiet`) and a cross-line path that runs the full rebuild;
finally the caret collapses to the selection start and the selection is
cleared. -/
def deleteSelection (st : TextEditState) : TextEditState :=
  if st.sel.isEmpty ∨ ¬ st.sel.isValidOn st.lines then st
  else
    let aposS := absolutePos st.lines st.sel.start
    let aposE := absolutePos st.lines st.sel.stop
    let newText := eraseRangeL st.flat aposS aposE
    let st' :=
      if st.sel.start.line = st.sel.stop.line then
        let lines' := modifyLine st.lines st.sel.start.line.toNat
          (fun l => { l with text := eraseRangeL l.text st.sel.start.pos st.sel.stop.pos })
        setTextQuiet { st with lines := lines' } newText
      else setText st newText
    { st' with caret := st.sel.start, sel := emptySelection }

/-- The `kKeyDel` branch of `TextEdit::onKeyDown` (textedit.cpp:252-271)
with no modifiers: if the selection is empty or invalid, synthesize a
one-step selection from the caret to `caret.right()`, then run
`deleteSelection`. -/
def keyDelPressed (st : TextEditState) : TextEditState :=
  let st' :=
    if st.sel.isEmpty ∨ ¬ st.sel.isValidOn st.lines then
      { st with sel := ⟨st.caret, (Caret.right st.lines st.caret).2⟩ }
    else st
  deleteSelection st'

/-- `TextEdit::paste` (textedit.cpp:70-99).  The clipboard read may fail
(`get_clipboard_text` returns `false`), modelled by an `Option` argument;
the Windows-only `\r\n` normalization concerns a platform branch outside
this model. -/
def paste (st : TextEditState) (clip : Option Ln) : TextEditState :=
  if ¬ caretValid st.lines st.caret then st
  else
    let st1 := deleteSelection st
    match clip with
    | none => st1
    | some cl =>
      let newText := insertAtL st1.flat (absolutePos st1.lines st1.caret) cl
      let st2 :=
        if NL ∈ cl then setText st1 newText
        else
          let lines' := modifyLine st1.lines st1.caret.line.toNat
            (fun l => { l with text := insertAtL l.text st1.caret.pos cl })
          setTextQuiet { st1 with lines := lines' } newText
      { st2 with caret := Caret.advanceBy st2.lines st2.caret cl.length }

/-! ### The line-store invariant -/

/-- The `i` fields of the records are `k, k+1, k+2, ...` in order;
`indexedFrom ls 0` states they are exactly `0 .. N-1`. -/
def indexedFrom : List LineRec → Int → Prop
  | [], _ => True
  | l :: ls, k => l.i = k ∧ indexedFrom ls (k + 1)

instance instDecidableIndexedFrom :
    (ls : List LineRec) → (k : Int) → Decidable (indexedFrom ls k)
  | [], _ => .isTrue trivial
  | l :: ls, k => @instDecidableAnd _ _ _ (instDecidableIndexedFrom ls (k + 1))

/-- The spec's line-store invariant: joining all `Line.text` with `\n`
reconstructs the widget's exact flat string, and the `i` index fields are
exactly `0 .. N-1` in order. -/
def linesInv (st : TextEditState) : Prop :=
  joinNl (st.lines.map (·.text)) = st.flat ∧ indexedFrom st.lines 0

instance (st : TextEditState) : Decidable (linesInv st) := by
  unfold linesInv; infer_instance

/-! ### The `Dock` node -/

/-- Modelled from the spec: the `ui` alignment flags (`ui::TOP` etc.) and
the `CENTER` slot constant come from the external ui library / `dock.h`,
neither under `src/`; the spec needs only five distinct named attachment
points (all nonzero, since `whichSideChildIsDocked` returns `0` for "not
docked"), modelled with the library's bit-flag values. -/
def TOP : Int := 8

/-- See `TOP`. -/
def BOTTOM : Int := 32

/-- See `TOP`. -/
def LEFT : Int := 4

/-- See `TOP`. -/
def RIGHT : Int := 16

/-- See `TOP`. -/
def CENTER : Int := 128

/-- A leaf widget as the `Dock` code observes it: an identity, a size
hint, and (when it implements the `Dockable` interface) its
`dockableAt()` flags. -/
structure DWidget where
  wid : Nat
  hintW : Int
  hintH : Int
  dockable : Option Int
deriving DecidableEq, Repr

/-- `gfx::Size`. -/
structure Size2 where
  w : Int
  h : Int
deriving DecidableEq, Repr

/-- One `Dock` node with its five parallel slot arrays
(`m_sides`/`m_aligns`/`m_sizes`, dock.cpp:70-76) and its ui children
list.  Slot occupants are modelled as leaf widgets: the nested-`Dock`
recursion of `dock()` and the cascade of `undock()` concern multi-node
trees outside the claims proved here. -/
structure DockState where
  sides : List (Option DWidget)
  aligns : List Int
  sizes : List Size2
  children : List DWidget
deriving DecidableEq, Repr

/-- `side_index` (dock.cpp:43-52): unknown sides fall through to the
center index. -/
def sideIndex (side : Int) : Nat :=
  if side = TOP then 0
  else if side = BOTTOM then 1
  else if side = LEFT then 2
  else if side = RIGHT then 3
  else 4

/-- `side_from_index` (dock.cpp:54-63). -/
def sideFromIndex (i : Nat) : Int :=
  if i = 0 then TOP
  else if i = 1 then BOTTOM
  else if i = 2 then LEFT
  else if i = 3 then RIGHT
  else CENTER

/-- `m_sides[i]`. -/
def getSide (d : DockState) (i : Nat) : Option DWidget :=
  d.sides.getD i none

/-- `Dock::calcAlign` (dock.cpp:704-718) for a leaf occupant: `0` for an
empty slot or a non-`Dockable` widget, else the widget's
`dockableAt()`. -/
def calcAlign (w : Option DWidget) : Int :=
  match w with
  | none => 0
  | some x => x.dockable.getD 0

/-- `Dock::setSide` (dock.cpp:694-702): store the occupant, recompute the
cached alignment, and (for a non-null occupant) reset the cached size to
the widget's size hint. -/
def setSide (d : DockState) (i : Nat) (w : Option DWidget) : DockState :=
  let d1 := { d with sides := d.sides.set i w, aligns := d.aligns.set i (calcAlign w) }
  match w with
  | some x => { d1 with sizes := d1.sizes.set i ⟨x.hintW, x.hintH⟩ }
  | none => d1

/-- `Dock::dock` (dock.cpp:120-138).  An empty slot takes the widget
(adding it as a ui child, and overriding the cached size when `prefSize`
is nonzero); an occupied slot either recurses into a nested `Dock` or hits
`ASSERT(false)` — both outside this single-node leaf model, left as the
identity. -/
def dockOp (d : DockState) (side : Int) (w : DWidget) (prefSize : Size2) : DockState :=
  let i := sideIndex side
  match getSide d i with
  | none =>
    let d1 := setSide d i (some w)
    let d2 := { d1 with children := d1.children ++ [w] }
    if prefSize ≠ ⟨0, 0⟩ then { d2 with sizes := d2.sizes.set i prefSize } else d2
  | some _ => d

/-- `Dock::undock` (dock.cpp:168-192) in the case where the widget's
parent is this very node: remove it from the children, clear the first
slot holding it (recomputing the cached alignment) and zero that slot's
cached size; a widget with no parent is left alone.  The cascading
`undock(parentDock)` call requires `parentDock != this`, impossible in a
single node. -/
def undockOp (d : DockState) (w : DWidget) : DockState :=
  if w ∈ d.children then
    let d1 := { d with children := d.children.erase w }
    match (List.range 5).find? (fun i => decide (getSide d1 i = some w)) with
    | some i =>
      let d2 := setSide d1 i none
      { d2 with sizes := d2.sizes.set i ⟨0, 0⟩ }
    | none => d1
  else d

/-- `Dock::whichSideChildIsDocked` (dock.cpp:194-200). -/
def whichSideChildIsDocked (d : DockState) (w : DWidget) : Int :=
  match (List.range 5).find? (fun i => decide (getSide d i = some w)) with
  | some i => sideFromIndex i
  | none => 0

/-! ### `Layout` / `Layouts` -/

/-- A `Layout` as `Layouts` observes it (the serialized XML fragment
carries no information about the lookup/insertion claims). -/
structure Layout where
  id : String
  name : String
deriving DecidableEq, Repr

/-- Modelled from the spec: `Layout::matchId` is implemented in
`layout.cpp`, not under `src/`; the spec describes `Layouts` as "a
mapping from id to Layout, keyed by id", so `matchId` compares this
layout's id with the given one. -/
def Layout.matchId (l : Layout) (s : String) : Bool :=
  l.id == s

/-- Modelled from the spec: `Layout::isDefault` is implemented in
`layout.cpp`, not under `src/`; per the spec "two well-known ids are
reserved (`default`, `mirrored-default`) marking built-in layouts", with
the id constants from layout.h:24-25. -/
def Layout.isDefault (l : Layout) : Bool :=
  l.id == "_default_" || l.id == "_mirrored_default_"

/-- `Layouts::getById` (layouts.cpp:42-48): first entry matching the id,
else null. -/
def getById (ls : List Layout) (s : String) : Option Layout :=
  ls.find? (fun l => l.matchId s)

/-- `Layouts::addLayout` (layouts.cpp:50-68) as a recursion over the
`find_if` scan: the first entry matching the new layout's id is replaced
in place (returning `false`); with no match the layout is appended,
returning `false` for default (built-in) layouts and `true` otherwise. -/
def addLayout : List Layout → Layout → Bool × List Layout
  | [], l => if l.isDefault then (false, [l]) else (true, [l])
  | l' :: ls, l =>
    if l'.matchId l.id then (false, l :: ls)
    else
      let r := addLayout ls l
      (r.1, l' :: r.2)

/-! ### Basic facts -/

theorem lineLen_nonneg (lines : List LineRec) (i : Int) : 0 ≤ lineLen lines i := by
  unfold lineLen; positivity

/-! ### Lemmas on `joinNl` / `splitNl` / `buildLines` -/

theorem joinNl_cons (t : Ln) (ts : List Ln) (h : ts ≠ []) :
    joinNl (t :: ts) = t ++ NL :: joinNl ts := by
  cases ts with
  | nil => exact absurd rfl h
  | cons a as => rfl

theorem splitNl_ne_nil : ∀ s : Ln, splitNl s ≠ []
  | [] => by simp [splitNl]
  | b :: rest => by
    unfold splitNl
    split_ifs
    · simp
    · cases h : splitNl rest <;> simp

theorem joinNl_splitNl : ∀ s : Ln, joinNl (splitNl s) = s
  | [] => rfl
  | b :: rest => by
    have ih := joinNl_splitNl rest
    unfold splitNl
    by_cases hb : b = NL
    · rw [if_pos hb, joinNl_cons _ _ (splitNl_ne_nil rest), ih, hb]
      rfl
    · rw [if_neg hb]
      cases hsp : splitNl rest with
      | nil => exact absurd hsp (splitNl_ne_nil rest)
      | cons t ts =>
        rw [hsp] at ih
        cases ts with
        | nil =>
          simp only [joinNl] at ih ⊢
          rw [ih]
        | cons u us =>
          rw [joinNl_cons _ _ (by simp)] at ih ⊢
          rw [List.cons_append, ih]

theorem buildLinesFrom_map_text : ∀ (ts : List Ln) (k : Int),
    (buildLinesFrom ts k).map (·.text) = ts
  | [], _ => rfl
  | t :: ts, k => by
    simp [buildLinesFrom, buildLinesFrom_map_text ts (k + 1)]

theorem buildLinesFrom_indexed : ∀ (ts : List Ln) (k : Int),
    indexedFrom (buildLinesFrom ts k) k
  | [], _ => trivial
  | t :: ts, k => ⟨rfl, buildLinesFrom_indexed ts (k + 1)⟩

/-- A full rebuild always restores the line-store invariant. -/
theorem linesInv_setText (st : TextEditState) (t : Ln) : linesInv (setText st t) :=
  ⟨by simp [setText, buildLines, buildLinesFrom_map_text, joinNl_splitNl],
   buildLinesFrom_indexed _ 0⟩

/-! ### Lemmas on `modifyLine` and `absolutePos` -/

theorem modifyLine_length : ∀ (ls : List LineRec) (i : Nat) (f : LineRec → LineRec),
    (modifyLine ls i f).length = ls.length
  | [], _, _ => rfl
  | _ :: _, 0, _ => rfl
  | l :: ls, n + 1, f => by simp [modifyLine, modifyLine_length ls n f]

theorem modifyLine_take : ∀ (ls : List LineRec) (i : Nat) (f : LineRec → LineRec),
    (modifyLine ls i f).take i = ls.take i
  | [], _, _ => by simp [modifyLine]
  | _ :: _, 0, _ => rfl
  | l :: ls, n + 1, f => by simp [modifyLine, modifyLine_take ls n f]

theorem modifyLine_getD_self : ∀ (ls : List LineRec) (i : Nat) (f : LineRec → LineRec)
    (d : LineRec), i < ls.length → (modifyLine ls i f).getD i d = f (ls.getD i d)
  | [], i, _, _, h => by simp at h
  | l :: ls, 0, f, d, _ => rfl
  | l :: ls, n + 1, f, d, h => by
    simp only [modifyLine, List.getD_cons_succ]
    exact modifyLine_getD_self ls n f d (by simpa using h)

theorem indexedFrom_modifyLine : ∀ (ls : List LineRec) (k : Int) (i : Nat)
    (f : LineRec → LineRec), (∀ l, (f l).i = l.i) → indexedFrom ls k →
    indexedFrom (modifyLine ls i f) k
  | [], _, _, _, _, h => h
  | l :: ls, k, 0, f, hf, h => ⟨(hf l).trans h.1, h.2⟩
  | l :: ls, k, n + 1, f, hf, h =>
    ⟨h.1, indexedFrom_modifyLine ls (k + 1) n f hf h.2⟩

theorem absolutePos_nonneg : ∀ (ls : List LineRec) (c : Caret),
    0 ≤ c.pos → 0 ≤ absolutePos ls c
  | [], _, _ => le_refl 0
  | l :: ls, c, h => by
    rw [absolutePos]
    split_ifs
    · exact h
    · have := absolutePos_nonneg ls c h
      positivity

/-- The absolute position of a caret on line `k + j` of a store indexed
from `k`: the byte lengths of the `j` preceding lines, one per preceding
implied newline, plus `pos`. -/
theorem absolutePos_indexed : ∀ (ls : List LineRec) (k : Int) (j : Nat) (c : Caret),
    indexedFrom ls k → c.line = k + j → j < ls.length →
    absolutePos ls c = (textLenSum (ls.take j) : Int) + j + c.pos
  | [], _, j, _, _, _, hj => by simp at hj
  | l :: ls, k, 0, c, hidx, hline, _ => by
    rw [absolutePos, if_pos (by have := hidx.1; omega : l.i = c.line)]
    simp [textLenSum]
  | l :: ls, k, j + 1, c, hidx, hline, hj => by
    rw [absolutePos, if_neg (by have := hidx.1; omega : ¬ l.i = c.line)]
    rw [absolutePos_indexed ls (k + 1) j c hidx.2 (by omega) (by simpa using hj)]
    simp only [List.take_succ_cons, textLenSum]
    push_cast
    ring

theorem absolutePos_le_join : ∀ (ls : List LineRec) (k : Int) (j : Nat) (c : Caret),
    indexedFrom ls k → c.line = k + j → j < ls.length →
    0 ≤ c.pos → c.pos ≤ ((ls.getD j dfltLine).text.length : Int) →
    absolutePos ls c ≤ ((joinNl (ls.map (·.text))).length : Int)
  | [], _, j, _, _, _, hj, _, _ => by simp at hj
  | l :: ls, k, 0, c, hidx, hline, _, hp0, hpl => by
    rw [absolutePos, if_pos (by have := hidx.1; omega : l.i = c.line)]
    simp only [List.getD_cons_zero] at hpl
    cases ls with
    | nil => simpa [joinNl] using hpl
    | cons a as =>
      rw [List.map_cons, joinNl_cons _ _ (by simp)]
      simp only [List.length_append, List.length_cons]
      omega
  | l :: ls, k, j + 1, c, hidx, hline, hj, hp0, hpl => by
    rw [absolutePos, if_neg (by have := hidx.1; omega : ¬ l.i = c.line)]
    have hj' : j < ls.length := by simpa using hj
    have hne : ls ≠ [] := by
      cases ls
      · simp at hj'
      · simp
    have ih := absolutePos_le_join ls (k + 1) j c hidx.2 (by omega) hj' hp0
      (by simpa using hpl)
    cases ls with
    | nil => exact absurd rfl hne
    | cons a as =>
      rw [List.map_cons, joinNl_cons _ _ (by simp)]
      simp only [List.length_append, List.length_cons]
      push_cast at ih ⊢
      omega

/-- Strict monotonicity of `absolutePos` in document order. -/
theorem absolutePos_lt : ∀ (ls : List LineRec) (k : Int) (j₁ j₂ : Nat) (c₁ c₂ : Caret),
    indexedFrom ls k → c₁.line = k + j₁ → c₂.line = k + j₂ →
    j₁ < ls.length → j₂ < ls.length →
    0 ≤ c₁.pos → c₁.pos ≤ ((ls.getD j₁ dfltLine).text.length : Int) → 0 ≤ c₂.pos →
    (j₁ < j₂ ∨ (j₁ = j₂ ∧ c₁.pos < c₂.pos)) →
    absolutePos ls c₁ < absolutePos ls c₂
  | [], _, j₁, _, _, _, _, _, _, hj, _, _, _, _, _ => by simp at hj
  | l :: ls, k, 0, 0, c₁, c₂, hidx, hl1, hl2, _, _, hp0, hpl, hq0, hord => by
    rw [absolutePos, if_pos (by have := hidx.1; omega : l.i = c₁.line),
      absolutePos, if_pos (by have := hidx.1; omega : l.i = c₂.line)]
    omega
  | l :: ls, k, 0, j₂ + 1, c₁, c₂, hidx, hl1, hl2, hj1, hj2, hp0, hpl, hq0, hord => by
    rw [absolutePos, if_pos (by have := hidx.1; omega : l.i = c₁.line),
      absolutePos, if_neg (by have := hidx.1; omega : ¬ l.i = c₂.line)]
    have := absolutePos_nonneg ls c₂ hq0
    simp only [List.getD_cons_zero] at hpl
    omega
  | l :: ls, k, j₁ + 1, 0, c₁, c₂, hidx, hl1, hl2, hj1, hj2, hp0, hpl, hq0, hord => by
    omega
  | l :: ls, k, j₁ + 1, j₂ + 1, c₁, c₂, hidx, hl1, hl2, hj1, hj2, hp0, hpl, hq0, hord => by
    rw [absolutePos, if_neg (by have := hidx.1; omega : ¬ l.i = c₁.line),
      absolutePos, if_neg (by have := hidx.1; omega : ¬ l.i = c₂.line)]
    have ih := absolutePos_lt ls (k + 1) j₁ j₂ c₁ c₂ hidx.2 (by omega) (by omega)
      (by simpa using hj1) (by simpa using hj2) hp0 (by simpa using hpl) hq0
      (by omega)
    omega

/-- Splicing bytes inside one line: replacing the byte range `[a, b)` of
line `j` by `u` is, on the newline-joined flat string, the replacement of
the range `[base + a, base + b)` by `u`, where `base` counts the bytes
and implied newlines of the preceding lines.  Instantiated with `a = b`
it is in-line insertion, with `u = []` in-line erasure. -/
theorem joinNl_map_modify_splice :
    ∀ (ls : List LineRec) (j a b : Nat) (u : Ln),
    j < ls.length → a ≤ b → b ≤ (ls.getD j dfltLine).text.length →
    joinNl ((modifyLine ls j
        (fun l => { l with text := l.text.take a ++ u ++ l.text.drop b })).map (·.text))
      = (joinNl (ls.map (·.text))).take (textLenSum (ls.take j) + j + a) ++ u
          ++ (joinNl (ls.map (·.text))).drop (textLenSum (ls.take j) + j + b)
  | [], j, _, _, _, hj, _, _ => by simp at hj
  | l :: ls, 0, a, b, u, hj, hab, hb => by
    simp only [List.getD_cons_zero] at hb
    have ha : a ≤ l.text.length := le_trans hab hb
    cases ls with
    | nil =>
      simp only [modifyLine, List.map_cons, List.map_nil, joinNl, List.take_nil,
        textLenSum, Nat.zero_add]
    | cons m ms =>
      simp only [modifyLine, List.map_cons]
      rw [joinNl_cons (l.text.take a ++ u ++ l.text.drop b)
            (m.text :: List.map (fun x => x.text) ms) (by simp),
          joinNl_cons l.text (m.text :: List.map (fun x => x.text) ms) (by simp)]
      simp only [List.take_zero, textLenSum, Nat.zero_add, Nat.add_zero]
      rw [List.take_append_of_le_length ha, List.drop_append_of_le_length hb]
      simp [List.append_assoc]
  | l :: ls, j + 1, a, b, u, hj, hab, hb => by
    have hj' : j < ls.length := by simpa using hj
    have hlsne : ls ≠ [] := by
      cases ls
      · simp at hj'
      · simp
    have hmne : (modifyLine ls j
        (fun l => { l with text := l.text.take a ++ u ++ l.text.drop b })).map (·.text) ≠ [] := by
      cases hmm : modifyLine ls j
          (fun l => { l with text := l.text.take a ++ u ++ l.text.drop b }) with
      | nil =>
        have := modifyLine_length ls j
          (fun l => { l with text := l.text.take a ++ u ++ l.text.drop b })
        rw [hmm] at this
        simp at this
        omega
      | cons x xs => simp
    have ih := joinNl_map_modify_splice ls j a b u hj' hab (by simpa using hb)
    simp only [modifyLine, List.map_cons]
    rw [joinNl_cons _ _ hmne, ih]
    rw [joinNl_cons _ _ (by simpa using hlsne)]
    rw [show textLenSum ((l :: ls).take (j + 1)) + (j + 1) + a
          = l.text.length + (1 + (textLenSum (ls.take j) + j + a)) by
        simp only [List.take_succ_cons, textLenSum]; omega]
    rw [show textLenSum ((l :: ls).take (j + 1)) + (j + 1) + b
          = l.text.length + (1 + (textLenSum (ls.take j) + j + b)) by
        simp only [List.take_succ_cons, textLenSum]; omega]
    rw [List.take_append, List.drop_append]
    rw [show 1 + (textLenSum (ls.take j) + j + a)
          = (textLenSum (ls.take j) + j + a) + 1 by omega]
    rw [show 1 + (textLenSum (ls.take j) + j + b)
          = (textLenSum (ls.take j) + j + b) + 1 by omega]
    simp [List.append_assoc]

/-- In-line erasure instance of the splice lemma. -/
theorem joinNl_map_modify_erase (ls : List LineRec) (j a b : Nat)
    (hj : j < ls.length) (hab : a ≤ b) (hb : b ≤ (ls.getD j dfltLine).text.length) :
    joinNl ((modifyLine ls j
        (fun l => { l with text := l.text.take a ++ l.text.drop b })).map (·.text))
      = (joinNl (ls.map (·.text))).take (textLenSum (ls.take j) + j + a)
          ++ (joinNl (ls.map (·.text))).drop (textLenSum (ls.take j) + j + b) := by
  have h := joinNl_map_modify_splice ls j a b [] hj hab hb
  simpa using h

theorem lineLen_eq_getD (lines : List LineRec) (i : Int) (h : 0 ≤ i) :
    lineLen lines i = ((lines.getD i.toNat dfltLine).text.length : Int) := by
  unfold lineLen lineTextAt
  rw [if_pos h]

/-- `insertCharacter` (the single-line fast path) preserves the
line-store invariant for any valid caret. -/
theorem linesInv_insertCharacter (st : TextEditState) (ch : Nat)
    (hinv : linesInv st) (hv : caretValid st.lines st.caret) :
    linesInv (insertCharacter st ch) := by
  obtain ⟨hjoin, hidx⟩ := hinv
  obtain ⟨h0, h1, h2, h3⟩ := hv
  rw [lineLen_eq_getD st.lines st.caret.line h0] at h3
  have hj : st.caret.line.toNat < st.lines.length := by omega
  have hp : st.caret.pos.toNat ≤ (st.lines.getD st.caret.line.toNat dfltLine).text.length := by
    omega
  have hidx' : indexedFrom (modifyLine st.lines st.caret.line.toNat
      (fun l => { l with text := insertAtL l.text st.caret.pos (codepointToUtf8 ch) })) 0 :=
    indexedFrom_modifyLine _ 0 _ _ (fun l => rfl) hidx
  have hlen' := modifyLine_length st.lines st.caret.line.toNat
    (fun l => { l with text := insertAtL l.text st.caret.pos (codepointToUtf8 ch) })
  have hpos := absolutePos_indexed (modifyLine st.lines st.caret.line.toNat
      (fun l => { l with text := insertAtL l.text st.caret.pos (codepointToUtf8 ch) }))
    0 st.caret.line.toNat st.caret hidx' (by omega) (by omega)
  rw [modifyLine_take] at hpos
  constructor
  · show joinNl _ = _
    simp only [insertCharacter, setTextQuiet]
    simp only [insertAtL] at hpos ⊢
    rw [joinNl_map_modify_splice st.lines st.caret.line.toNat st.caret.pos.toNat
        st.caret.pos.toNat (codepointToUtf8 ch) hj (le_refl _) hp]
    rw [hjoin]
    have hcong : ∀ (f u : Ln) (A B : Nat), A = B →
        f.take A ++ u ++ f.drop A = f.take B ++ u ++ f.drop B := by
      intro f u A B h
      rw [h]
    apply hcong
    omega
  · show indexedFrom _ 0
    simp only [insertCharacter, setTextQuiet]
    simpa only [insertAtL] using hidx'

/-- `deleteSelection` preserves the line-store invariant whenever the
selection is normalized (`start <= end` lexicographically); the empty- or
invalid-selection guard and the cross-line full rebuild need no
hypothesis at all. -/
theorem linesInv_deleteSelection (st : TextEditState)
    (hinv : linesInv st) (hord : lexLe st.sel.start st.sel.stop) :
    linesInv (deleteSelection st) := by
  obtain ⟨hjoin, hidx⟩ := hinv
  rw [deleteSelection]
  split_ifs with hg hl
  · exact ⟨hjoin, hidx⟩
  · -- same-line fast path
    obtain ⟨⟨hs0, hs1, hs2, hs3⟩, ⟨ht0, ht1, ht2, ht3⟩⟩ :
        caretValid st.lines st.sel.start ∧ caretValid st.lines st.sel.stop := by
      rcases not_or.mp hg with ⟨-, hval⟩
      exact not_not.mp hval
    rw [lineLen_eq_getD st.lines st.sel.start.line hs0] at hs3
    rw [lineLen_eq_getD st.lines st.sel.stop.line ht0] at ht3
    have hposle : st.sel.start.pos ≤ st.sel.stop.pos := by
      rcases hord with h | h
      · omega
      · exact h.2
    have hj : st.sel.start.line.toNat < st.lines.length := by omega
    have hb : st.sel.stop.pos.toNat ≤
        (st.lines.getD st.sel.start.line.toNat dfltLine).text.length := by
      rw [show st.sel.start.line.toNat = st.sel.stop.line.toNat by omega]
      omega
    have hposS := absolutePos_indexed st.lines 0 st.sel.start.line.toNat st.sel.start
      hidx (by omega) hj
    have hposE := absolutePos_indexed st.lines 0 st.sel.stop.line.toNat st.sel.stop
      hidx (by omega) (by omega)
    rw [show st.sel.stop.line.toNat = st.sel.start.line.toNat by omega] at hposE
    constructor
    · show joinNl _ = _
      simp only [setTextQuiet]
      simp only [eraseRangeL]
      rw [joinNl_map_modify_erase st.lines st.sel.start.line.toNat
          st.sel.start.pos.toNat st.sel.stop.pos.toNat hj (by omega) hb]
      rw [hjoin]
      have hcong : ∀ (f : Ln) (A B A2 B2 : Nat), A = A2 → B = B2 →
          f.take A ++ f.drop B = f.take A2 ++ f.drop B2 := by
        intro f A B A2 B2 h h2
        rw [h, h2]
      apply hcong <;> omega
    · show indexedFrom _ 0
      simp only [setTextQuiet, eraseRangeL]
      exact indexedFrom_modifyLine _ 0 _ _ (fun l => rfl) hidx
  · -- cross-line full rebuild
    exact ⟨(linesInv_setText st _).1, (linesInv_setText st _).2⟩

/-! ### C1: selection-normalization invariant of `to()` -/

/-- C1 counterexample: with selection `start = end = (1,0)` and caret
`(0,5)`, both observed revisions of `Selection::to` leave
`start = (1,0) > end = (0,5)` in the lexicographic `(line, pos)` order,
because they compare by the `line + pos` sum instead. -/
theorem claim_C1_counterexample :
    ¬ lexLe ((TextEdit.Selection.to ⟨⟨1, 0⟩, ⟨1, 0⟩⟩ ⟨0, 5⟩).start)
        ((TextEdit.Selection.to ⟨⟨1, 0⟩, ⟨1, 0⟩⟩ ⟨0, 5⟩).stop) ∧
    ¬ lexLe ((MultilineEntry.Selection.to ⟨⟨1, 0⟩, ⟨1, 0⟩⟩ ⟨0, 5⟩).start)
        ((MultilineEntry.Selection.to ⟨⟨1, 0⟩, ⟨1, 0⟩⟩ ⟨0, 5⟩).stop) := by
  decide

/-- C1 (amended): after `to(caret)` the selection satisfies
`start.line + start.pos ≤ end.line + end.pos` — the sum order the code
actually compares by, not the lexicographic order.  For the `TextEdit`
revision (which collapses `end` onto a re-anchored `start`) this holds
unconditionally, for every selection and caret; for the `MultilineEntry`
revision it holds whenever it held before the call. -/
theorem claim_C1_amended (s : Selection) (c : Caret) :
    sumLe ((TextEdit.Selection.to s c).start) ((TextEdit.Selection.to s c).stop) ∧
    (sumLe s.start s.stop →
      sumLe ((MultilineEntry.Selection.to s c).start)
        ((MultilineEntry.Selection.to s c).stop)) := by
  unfold TextEdit.Selection.to MultilineEntry.Selection.to sumLe
  constructor
  · split_ifs <;> simp_all <;> omega
  · intro hpre
    split_ifs <;> simp_all <;> omega

/-- Witness for C1 (amended) at the concrete selection
`⟨(0,0), (0,1)⟩` and caret `(1,2)`, discharging the `MultilineEntry`
conjunct's precondition there. -/
theorem claim_C1_amended_witness :
    sumLe ((TextEdit.Selection.to ⟨⟨0, 0⟩, ⟨0, 1⟩⟩ ⟨1, 2⟩).start)
        ((TextEdit.Selection.to ⟨⟨0, 0⟩, ⟨0, 1⟩⟩ ⟨1, 2⟩).stop) ∧
    sumLe ((MultilineEntry.Selection.to ⟨⟨0, 0⟩, ⟨0, 1⟩⟩ ⟨1, 2⟩).start)
        ((MultilineEntry.Selection.to ⟨⟨0, 0⟩, ⟨0, 1⟩⟩ ⟨1, 2⟩).stop) :=
  ⟨(claim_C1_amended ⟨⟨0, 0⟩, ⟨0, 1⟩⟩ ⟨1, 2⟩).1,
   (claim_C1_amended ⟨⟨0, 0⟩, ⟨0, 1⟩⟩ ⟨1, 2⟩).2 (by decide)⟩

/-! ### C2: `left` / `right` round-trip -/

/-- C2: over a non-empty line sequence, for every valid caret: away from
the very start, `left()` returns `true` and `right()` undoes it; away
from the very end, `right()` returns `true` and `left()` undoes it; at
`(0,0)` `left()` returns `false` leaving the caret unchanged, and at
`(lastLine, len(lastLine))` `right()` returns `false` leaving the caret
unchanged. -/
theorem claim_C2 (lines : List LineRec) (c : Caret)
    (hne : lines ≠ []) (hv : caretValid lines c) :
    (¬(c.line = 0 ∧ c.pos = 0) →
      (Caret.left lines c).1 = true ∧
      (Caret.right lines (Caret.left lines c).2).2 = c) ∧
    (¬(c.line = (lines.length : Int) - 1 ∧ c.pos = lineLen lines c.line) →
      (Caret.right lines c).1 = true ∧
      (Caret.left lines (Caret.right lines c).2).2 = c) ∧
    ((c.line = 0 ∧ c.pos = 0) → Caret.left lines c = (false, c)) ∧
    ((c.line = (lines.length : Int) - 1 ∧ c.pos = lineLen lines c.line) →
      Caret.right lines c = (false, c)) := by
  obtain ⟨cl, cp⟩ := c
  obtain ⟨h0, h1, h2, h3⟩ := hv
  dsimp only at h0 h1 h2 h3 ⊢
  have hN : 1 ≤ (lines.length : Int) := by
    have : lines.length ≠ 0 := fun h => hne (List.eq_nil_of_length_eq_zero h)
    omega
  have hL0 : 0 ≤ lineLen lines (cl - 1) := lineLen_nonneg lines (cl - 1)
  have hL1 : 0 ≤ lineLen lines (cl + 1) := lineLen_nonneg lines (cl + 1)
  refine ⟨?_, ?_, ?_, ?_⟩
  · intro hns
    simp only [Caret.left]
    split_ifs with hp hl
    · omega
    · -- wrapped to end of previous line
      constructor
      · rfl
      · simp only [Caret.right]
        split_ifs with hq hr <;> simp_all <;> omega
    · -- moved within the line
      constructor
      · rfl
      · simp only [Caret.right]
        split_ifs with hq <;> simp_all <;> omega
  · intro hne2
    simp only [Caret.right]
    split_ifs with hp hl
    · omega
    · -- wrapped to start of next line
      constructor
      · rfl
      · simp only [Caret.left]
        split_ifs with hq hr <;> simp_all <;> omega
    · -- moved within the line
      constructor
      · rfl
      · simp only [Caret.left]
        split_ifs with hq <;> simp_all <;> omega
  · intro hs
    simp only [Caret.left]
    split_ifs with hp hl <;> simp_all <;> omega
  · intro hend
    simp only [Caret.right]
    split_ifs with hp hl <;> simp_all <;> omega

/-- Witness for C2 over the two-line store `["ab", "cd"]` at caret
`(0, 2)`. -/
theorem claim_C2_witness :
    ([⟨[97, 98], 0⟩, ⟨[99, 100], 1⟩] : List LineRec) ≠ [] ∧
    caretValid [⟨[97, 98], 0⟩, ⟨[99, 100], 1⟩] ⟨0, 2⟩ ∧
    ((¬((0 : Int) = 0 ∧ (2 : Int) = 0) →
      (Caret.left [⟨[97, 98], 0⟩, ⟨[99, 100], 1⟩] ⟨0, 2⟩).1 = true ∧
      (Caret.right [⟨[97, 98], 0⟩, ⟨[99, 100], 1⟩]
        (Caret.left [⟨[97, 98], 0⟩, ⟨[99, 100], 1⟩] ⟨0, 2⟩).2).2 = ⟨0, 2⟩) ∧
    (¬((0 : Int) = (([⟨[97, 98], 0⟩, ⟨[99, 100], 1⟩] : List LineRec).length : Int) - 1 ∧
        (2 : Int) = lineLen [⟨[97, 98], 0⟩, ⟨[99, 100], 1⟩] 0) →
      (Caret.right [⟨[97, 98], 0⟩, ⟨[99, 100], 1⟩] ⟨0, 2⟩).1 = true ∧
      (Caret.left [⟨[97, 98], 0⟩, ⟨[99, 100], 1⟩]
        (Caret.right [⟨[97, 98], 0⟩, ⟨[99, 100], 1⟩] ⟨0, 2⟩).2).2 = ⟨0, 2⟩) ∧
    (((0 : Int) = 0 ∧ (2 : Int) = 0) →
      Caret.left [⟨[97, 98], 0⟩, ⟨[99, 100], 1⟩] ⟨0, 2⟩ = (false, ⟨0, 2⟩)) ∧
    (((0 : Int) = (([⟨[97, 98], 0⟩, ⟨[99, 100], 1⟩] : List LineRec).length : Int) - 1 ∧
        (2 : Int) = lineLen [⟨[97, 98], 0⟩, ⟨[99, 100], 1⟩] 0) →
      Caret.right [⟨[97, 98], 0⟩, ⟨[99, 100], 1⟩] ⟨0, 2⟩ = (false, ⟨0, 2⟩))) :=
  ⟨by decide, by decide,
    claim_C2 [⟨[97, 98], 0⟩, ⟨[99, 100], 1⟩] ⟨0, 2⟩ (by decide) (by decide)⟩

/-! ### C6: `operator>` is the lexicographic order -/

/-- C6: both revisions of `Caret::operator>` implement the strict
lexicographic order on `(line, pos)`: `a > b` iff `a.line > b.line`, or
`a.line = b.line` and `a.pos > b.pos` (on distinct lines the shared
`pos` summand cancels). -/
theorem claim_C6 (a b : Caret) :
    (TextEdit.Caret.gtOp a b = true ↔
      (b.line < a.line ∨ (a.line = b.line ∧ b.pos < a.pos))) ∧
    (MultilineEntry.Caret.gtOp a b = true ↔
      (b.line < a.line ∨ (a.line = b.line ∧ b.pos < a.pos))) := by
  unfold TextEdit.Caret.gtOp MultilineEntry.Caret.gtOp
  constructor <;> split_ifs <;> simp_all <;> omega

/-! ### C3: `advanceBy` versus flattened-string movement -/

/-- C3 (code bug): over the store `["ab", "cd"]` (flattened text
`"ab\ncd"`, length 5), the caret `(0,2)` has absolute position 2 and
`2 + 1 ≤ 5`, yet `advanceBy(1)` lands on `(1,1)` with absolute position
4, not 3: the spill branch subtracts only the characters left in the
line, so the implied newline is crossed without being counted. -/
theorem claim_C3_failing :
    Caret.advanceBy [⟨[97, 98], 0⟩, ⟨[99, 100], 1⟩] ⟨0, 2⟩ 1 = ⟨1, 1⟩ ∧
    absolutePos [⟨[97, 98], 0⟩, ⟨[99, 100], 1⟩] ⟨0, 2⟩ = 2 ∧
    absolutePos [⟨[97, 98], 0⟩, ⟨[99, 100], 1⟩]
      (Caret.advanceBy [⟨[97, 98], 0⟩, ⟨[99, 100], 1⟩] ⟨0, 2⟩ 1) = 4 ∧
    (joinNl (([⟨[97, 98], 0⟩, ⟨[99, 100], 1⟩] : List LineRec).map (·.text))).length = 5 := by
  decide

/-! ### C5: Delete at end of first line merges the two lines -/

/-- C5: with content `"ab\ncd"` (two lines, as built by `onSetText`),
caret `(0,2)` and an empty selection, pressing Delete yields content
`"abcd"` on a single line with the caret still at `(0,2)`. -/
theorem claim_C5 :
    (keyDelPressed ⟨[97, 98, 10, 99, 100],
        [⟨[97, 98], 0⟩, ⟨[99, 100], 1⟩], ⟨0, 2⟩, ⟨⟨0, 0⟩, ⟨0, 0⟩⟩⟩).flat
      = [97, 98, 99, 100] ∧
    (keyDelPressed ⟨[97, 98, 10, 99, 100],
        [⟨[97, 98], 0⟩, ⟨[99, 100], 1⟩], ⟨0, 2⟩, ⟨⟨0, 0⟩, ⟨0, 0⟩⟩⟩).lines
      = [⟨[97, 98, 99, 100], 0⟩] ∧
    (keyDelPressed ⟨[97, 98, 10, 99, 100],
        [⟨[97, 98], 0⟩, ⟨[99, 100], 1⟩], ⟨0, 2⟩, ⟨⟨0, 0⟩, ⟨0, 0⟩⟩⟩).caret
      = ⟨0, 2⟩ ∧
    buildLines [97, 98, 10, 99, 100] = [⟨[97, 98], 0⟩, ⟨[99, 100], 1⟩] := by
  decide

/-! ### C4: the line-store invariant across the editing operations -/

/-- C4: after every editing operation of the text-edit core — the full
rebuild (`onSetText`, run by `setText`), the single-line fast path
`insertCharacter`, and `deleteSelection` in both its single-line and
cross-line branches — joining all `Line.text` with `\n` reproduces
exactly the widget's flat string, and the `Line.i` fields are exactly
`0..N-1` in order.  The rebuild restores the invariant unconditionally;
the two patching operations preserve it given the state they are actually
run on: an already-consistent store, a valid caret, and a normalized
selection. -/
theorem claim_C4 (st : TextEditState) (t : Ln) (ch : Nat)
    (hinv : linesInv st) (hv : caretValid st.lines st.caret)
    (hord : lexLe st.sel.start st.sel.stop) :
    linesInv (setText st t) ∧ linesInv (insertCharacter st ch) ∧
      linesInv (deleteSelection st) :=
  ⟨linesInv_setText st t, linesInv_insertCharacter st ch hinv hv,
    linesInv_deleteSelection st hinv hord⟩

/-- Witness for C4 on the two-line state `"ab\ncd"` with caret `(0,1)`
and selection `(0,0)-(1,1)`. -/
theorem claim_C4_witness :
    linesInv (setText ⟨[97, 98, 10, 99, 100],
      [⟨[97, 98], 0⟩, ⟨[99, 100], 1⟩], ⟨0, 1⟩, ⟨⟨0, 0⟩, ⟨1, 1⟩⟩⟩ [120, 10]) ∧
    linesInv (insertCharacter ⟨[97, 98, 10, 99, 100],
      [⟨[97, 98], 0⟩, ⟨[99, 100], 1⟩], ⟨0, 1⟩, ⟨⟨0, 0⟩, ⟨1, 1⟩⟩⟩ 65) ∧
    linesInv (deleteSelection ⟨[97, 98, 10, 99, 100],
      [⟨[97, 98], 0⟩, ⟨[99, 100], 1⟩], ⟨0, 1⟩, ⟨⟨0, 0⟩, ⟨1, 1⟩⟩⟩) :=
  claim_C4 ⟨[97, 98, 10, 99, 100], [⟨[97, 98], 0⟩, ⟨[99, 100], 1⟩], ⟨0, 1⟩,
    ⟨⟨0, 0⟩, ⟨1, 1⟩⟩⟩ [120, 10] 65 (by decide) (by decide) (by decide)

/-! ### C9: `paste` is not atomic w.r.t. clipboard failure -/

/-- C9: with a valid caret and a non-empty, valid, normalized selection,
a `paste` whose clipboard read fails returns exactly the
`deleteSelection` result: the previously selected text is already gone
from the widget (strictly fewer bytes than before), because the deletion
happens before the clipboard is read. -/
theorem claim_C9 (st : TextEditState)
    (hinv : linesInv st) (hc : caretValid st.lines st.caret)
    (hsel : st.sel.isValidOn st.lines) (hne : ¬ st.sel.isEmpty)
    (hord : lexLe st.sel.start st.sel.stop) :
    paste st none = deleteSelection st ∧
    (paste st none).flat.length < st.flat.length := by
  have hpaste : paste st none = deleteSelection st := by
    rw [paste, if_neg (not_not_intro hc)]
  refine ⟨hpaste, ?_⟩
  rw [hpaste]
  obtain ⟨hjoin, hidx⟩ := hinv
  have hSv := hsel.1
  have hTv := hsel.2
  obtain ⟨hs0, hs1, hs2, hs3⟩ := hSv
  obtain ⟨ht0, ht1, ht2, ht3⟩ := hTv
  rw [lineLen_eq_getD _ _ hs0] at hs3
  rw [lineLen_eq_getD _ _ ht0] at ht3
  have hflat : (deleteSelection st).flat
      = eraseRangeL st.flat (absolutePos st.lines st.sel.start)
          (absolutePos st.lines st.sel.stop) := by
    rw [deleteSelection, if_neg (not_or.mpr ⟨hne, not_not_intro hsel⟩)]
    split_ifs <;> rfl
  rw [hflat]
  have hlt : absolutePos st.lines st.sel.start < absolutePos st.lines st.sel.stop := by
    apply absolutePos_lt st.lines 0 st.sel.start.line.toNat st.sel.stop.line.toNat
      st.sel.start st.sel.stop hidx (by omega) (by omega) (by omega) (by omega)
      hs2 hs3 ht2
    unfold Selection.isEmpty at hne
    unfold lexLe at hord
    omega
  have hle : absolutePos st.lines st.sel.stop ≤ (st.flat.length : Int) := by
    have h := absolutePos_le_join st.lines 0 st.sel.stop.line.toNat st.sel.stop hidx
      (by omega) (by omega) ht2 ht3
    rw [hjoin] at h
    exact h
  have hge : 0 ≤ absolutePos st.lines st.sel.start := absolutePos_nonneg _ _ hs2
  rw [eraseRangeL]
  simp only [List.length_append, List.length_take, List.length_drop]
  omega

/-- Witness for C9 on the state `"ab\ncd"` with caret `(0,1)` and
selection `(0,1)-(1,1)`. -/
theorem claim_C9_witness :
    paste ⟨[97, 98, 10, 99, 100], [⟨[97, 98], 0⟩, ⟨[99, 100], 1⟩], ⟨0, 1⟩,
        ⟨⟨0, 1⟩, ⟨1, 1⟩⟩⟩ none
      = deleteSelection ⟨[97, 98, 10, 99, 100], [⟨[97, 98], 0⟩, ⟨[99, 100], 1⟩], ⟨0, 1⟩,
        ⟨⟨0, 1⟩, ⟨1, 1⟩⟩⟩ ∧
    (paste ⟨[97, 98, 10, 99, 100], [⟨[97, 98], 0⟩, ⟨[99, 100], 1⟩], ⟨0, 1⟩,
        ⟨⟨0, 1⟩, ⟨1, 1⟩⟩⟩ none).flat.length
      < ([97, 98, 10, 99, 100] : Ln).length :=
  claim_C9 ⟨[97, 98, 10, 99, 100], [⟨[97, 98], 0⟩, ⟨[99, 100], 1⟩], ⟨0, 1⟩,
    ⟨⟨0, 1⟩, ⟨1, 1⟩⟩⟩ (by decide) (by decide) (by decide) (by decide) (by decide)

/-! ### C10: `insertCharacter` and multi-byte codepoints -/

/-- C10: for a valid caret, `insertCharacter(c)` splices the UTF-8 bytes
of `c` into the caret's line at the caret's byte position and into the
flat string at the caret's absolute position, yet always advances `pos`
by exactly 1; the encoding is a single byte exactly when `c < 128`, so
for multi-byte codepoints the caret lands inside the inserted byte
sequence. -/
theorem claim_C10 (st : TextEditState) (ch : Nat)
    (hinv : linesInv st) (hv : caretValid st.lines st.caret) :
    (insertCharacter st ch).caret = ⟨st.caret.line, st.caret.pos + 1⟩ ∧
    lineTextAt (insertCharacter st ch).lines st.caret.line
      = insertAtL (lineTextAt st.lines st.caret.line) st.caret.pos (codepointToUtf8 ch) ∧
    (insertCharacter st ch).flat
      = insertAtL st.flat (absolutePos st.lines st.caret) (codepointToUtf8 ch) ∧
    1 ≤ (codepointToUtf8 ch).length ∧
    ((codepointToUtf8 ch).length = 1 ↔ ch < 128) := by
  obtain ⟨hjoin, hidx⟩ := hinv
  obtain ⟨h0, h1, h2, h3⟩ := hv
  have hj : st.caret.line.toNat < st.lines.length := by omega
  refine ⟨rfl, ?_, ?_, ?_, ?_⟩
  · show lineTextAt (modifyLine st.lines st.caret.line.toNat
        (fun l => { l with text := insertAtL l.text st.caret.pos (codepointToUtf8 ch) }))
        st.caret.line = _
    unfold lineTextAt
    rw [if_pos h0, if_pos h0]
    rw [modifyLine_getD_self _ _ _ _ hj]
  · show insertAtL st.flat (absolutePos (modifyLine st.lines st.caret.line.toNat
        (fun l => { l with text := insertAtL l.text st.caret.pos (codepointToUtf8 ch) }))
        st.caret) (codepointToUtf8 ch) = _
    have hidx' : indexedFrom (modifyLine st.lines st.caret.line.toNat
        (fun l => { l with text := insertAtL l.text st.caret.pos (codepointToUtf8 ch) })) 0 :=
      indexedFrom_modifyLine _ 0 _ _ (fun l => rfl) hidx
    have hlen' := modifyLine_length st.lines st.caret.line.toNat
      (fun l => { l with text := insertAtL l.text st.caret.pos (codepointToUtf8 ch) })
    have hpos1 := absolutePos_indexed (modifyLine st.lines st.caret.line.toNat
        (fun l => { l with text := insertAtL l.text st.caret.pos (codepointToUtf8 ch) }))
      0 st.caret.line.toNat st.caret hidx' (by omega) (by omega)
    have hpos2 := absolutePos_indexed st.lines 0 st.caret.line.toNat st.caret hidx
      (by omega) hj
    rw [modifyLine_take] at hpos1
    rw [hpos1, hpos2]
  · unfold codepointToUtf8
    split_ifs <;> simp
  · unfold codepointToUtf8
    split_ifs with ha hb hcc <;> simp <;> omega

/-- Witness for C10 with the two-byte codepoint U+00E9 on the state
`"ab\ncd"` with caret `(0,1)`. -/
theorem claim_C10_witness :
    (insertCharacter ⟨[97, 98, 10, 99, 100], [⟨[97, 98], 0⟩, ⟨[99, 100], 1⟩], ⟨0, 1⟩,
        ⟨⟨0, 0⟩, ⟨0, 0⟩⟩⟩ 233).caret = ⟨0, 2⟩ ∧
    lineTextAt (insertCharacter ⟨[97, 98, 10, 99, 100],
        [⟨[97, 98], 0⟩, ⟨[99, 100], 1⟩], ⟨0, 1⟩, ⟨⟨0, 0⟩, ⟨0, 0⟩⟩⟩ 233).lines 0
      = insertAtL (lineTextAt [⟨[97, 98], 0⟩, ⟨[99, 100], 1⟩] 0) 1 (codepointToUtf8 233) ∧
    (insertCharacter ⟨[97, 98, 10, 99, 100], [⟨[97, 98], 0⟩, ⟨[99, 100], 1⟩], ⟨0, 1⟩,
        ⟨⟨0, 0⟩, ⟨0, 0⟩⟩⟩ 233).flat
      = insertAtL [97, 98, 10, 99, 100]
          (absolutePos [⟨[97, 98], 0⟩, ⟨[99, 100], 1⟩] ⟨0, 1⟩) (codepointToUtf8 233) ∧
    1 ≤ (codepointToUtf8 233).length ∧
    ((codepointToUtf8 233).length = 1 ↔ (233 : Nat) < 128) :=
  claim_C10 ⟨[97, 98, 10, 99, 100], [⟨[97, 98], 0⟩, ⟨[99, 100], 1⟩], ⟨0, 1⟩,
    ⟨⟨0, 0⟩, ⟨0, 0⟩⟩⟩ 233 (by decide) (by decide)

/-! ### C8: `Layouts::addLayout` / `getById` -/

/-- C8: `addLayout(L)` returns `true` exactly when no existing entry
matches `L`'s id and `L` is not a default (built-in) layout; when an
entry with the same id exists, the first such entry is replaced in place
(`false` returned, the list becomes `ls.set i L` at the first matching
index `i`); with no match the layout is appended; and in every case
`getById(L.id)` afterwards returns `L`. -/
theorem claim_C8 (ls : List Layout) (l : Layout) :
    ((addLayout ls l).1 = true ↔
      ((∀ l2 ∈ ls, l2.matchId l.id = false) ∧ l.isDefault = false)) ∧
    ((∃ l2 ∈ ls, l2.matchId l.id = true) →
      (addLayout ls l).1 = false ∧
      ∃ i, i < ls.length ∧ (ls.getD i ⟨"", ""⟩).matchId l.id = true ∧
        (∀ j, j < i → (ls.getD j ⟨"", ""⟩).matchId l.id = false) ∧
        (addLayout ls l).2 = ls.set i l) ∧
    ((∀ l2 ∈ ls, l2.matchId l.id = false) → (addLayout ls l).2 = ls ++ [l]) ∧
    getById (addLayout ls l).2 l.id = some l := by
  have hself : l.matchId l.id = true := by
    simp [Layout.matchId]
  induction ls with
  | nil =>
    refine ⟨?_, by simp, ?_, ?_⟩
    · rw [addLayout]
      cases h : l.isDefault <;> simp [h]
    · rw [addLayout]
      cases h : l.isDefault <;> simp [h]
    · rw [addLayout]
      cases h : l.isDefault <;> simp [h, getById, List.find?, hself]
  | cons a as ih =>
    by_cases ha : a.matchId l.id = true
    · refine ⟨?_, ?_, ?_, ?_⟩
      · rw [addLayout, if_pos ha]
        simp [ha]
      · rw [addLayout, if_pos ha]
        intro hex
        exact ⟨rfl, 0, by simp, by simpa using ha, by omega, rfl⟩
      · intro hall
        exact absurd ha (by simpa using (hall a (by simp)))
      · rw [addLayout, if_pos ha]
        simp [getById, List.find?, hself]
    · have ha' : a.matchId l.id = false := by
        cases h : a.matchId l.id
        · rfl
        · exact absurd h ha
      refine ⟨?_, ?_, ?_, ?_⟩
      · rw [addLayout, if_neg ha]
        simpa [ha'] using ih.1
      · intro hex
        rw [addLayout, if_neg ha]
        have hex' : ∃ l2 ∈ as, l2.matchId l.id = true := by
          rcases hex with ⟨l2, hmem, hm⟩
          rcases List.mem_cons.mp hmem with h | h
          · exact absurd (h ▸ hm) ha
          · exact ⟨l2, h, hm⟩
        obtain ⟨hfst, i, hi, hm, hbefore, heq⟩ := ih.2.1 hex'
        refine ⟨by simpa using hfst, i + 1, by simpa using hi, by simpa using hm, ?_, ?_⟩
        · intro j hj
          cases j with
          | zero => simpa using ha'
          | succ j' => simpa using hbefore j' (by omega)
        · show a :: (addLayout as l).2 = (a :: as).set (i + 1) l
          rw [List.set_cons_succ, heq]
      · intro hall
        rw [addLayout, if_neg ha]
        have := ih.2.2.1 (fun l2 hmem => hall l2 (List.mem_cons_of_mem a hmem))
        show a :: (addLayout as l).2 = a :: (as ++ [l])
        rw [this]
      · rw [addLayout, if_neg ha]
        simpa [getById, List.find?, ha'] using ih.2.2.2

/-! ### C7: `Dock::dock` / `undock` / `whichSideChildIsDocked` -/

theorem getD_set_self {α : Type} (l : List α) (i : Nat) (x d : α) (h : i < l.length) :
    (l.set i x).getD i d = x := by
  simp [List.getD, List.getElem?_set_self', h]

theorem getD_set_ne {α : Type} (l : List α) (i j : Nat) (x d : α) (h : i ≠ j) :
    (l.set i x).getD j d = l.getD j d := by
  simp [List.getD, List.getElem?_set_ne h]

theorem find_range5_unique (p : Nat → Bool) (i : Nat) (hi : i < 5)
    (hp : p i = true) (ho : ∀ j, j < 5 → j ≠ i → p j = false) :
    (List.range 5).find? p = some i := by
  have h5 : List.range 5 = [0, 1, 2, 3, 4] := by decide
  rw [h5]
  interval_cases i <;> simp_all [List.find?]

theorem find_range5_none (p : Nat → Bool) (ho : ∀ j, j < 5 → p j = false) :
    (List.range 5).find? p = none := by
  have h5 : List.range 5 = [0, 1, 2, 3, 4] := by decide
  rw [h5]
  simp_all [List.find?]

theorem sideIndex_lt5 (side : Int) : sideIndex side < 5 := by
  unfold sideIndex
  split_ifs <;> omega

theorem sideFromIndex_sideIndex (side : Int)
    (hside : side = TOP ∨ side = BOTTOM ∨ side = LEFT ∨ side = RIGHT ∨ side = CENTER) :
    sideFromIndex (sideIndex side) = side := by
  rcases hside with h | h | h | h | h <;> subst h <;> decide

/-- C7: docking a widget into an empty slot of a `Dock` node makes
`whichSideChildIsDocked` report exactly that side, and a subsequent
`undock` empties the slot again, removes the widget from the node's
children, and makes `whichSideChildIsDocked` report `0`.  The widget must
be new to the node (present in no slot and not among the children), and
the side one of the five named slots. -/
theorem claim_C7 (d : DockState) (side : Int) (w : DWidget) (ps : Size2)
    (hside : side = TOP ∨ side = BOTTOM ∨ side = LEFT ∨ side = RIGHT ∨ side = CENTER)
    (hlen : d.sides.length = 5)
    (hempty : getSide d (sideIndex side) = none)
    (hnot : ∀ j, j < 5 → getSide d j ≠ some w)
    (hchild : w ∉ d.children) :
    whichSideChildIsDocked (dockOp d side w ps) w = side ∧
    getSide (undockOp (dockOp d side w ps) w) (sideIndex side) = none ∧
    w ∉ (undockOp (dockOp d side w ps) w).children ∧
    whichSideChildIsDocked (undockOp (dockOp d side w ps) w) w = 0 := by
  have hi5 := sideIndex_lt5 side
  have hDs : (dockOp d side w ps).sides = d.sides.set (sideIndex side) (some w) := by
    simp only [dockOp, hempty, setSide]
    split_ifs <;> rfl
  have hDc : (dockOp d side w ps).children = d.children ++ [w] := by
    simp only [dockOp, hempty, setSide]
    split_ifs <;> rfl
  have hgot : getSide (dockOp d side w ps) (sideIndex side) = some w := by
    rw [getSide, hDs]
    exact getD_set_self _ _ _ _ (by omega)
  have hother : ∀ j, j < 5 → j ≠ sideIndex side →
      getSide (dockOp d side w ps) j = getSide d j := by
    intro j _ hj
    rw [getSide, hDs, getD_set_ne _ _ _ _ _ (fun h => hj h.symm)]
    rfl
  have hfindD : (List.range 5).find?
      (fun i => decide (getSide (dockOp d side w ps) i = some w)) = some (sideIndex side) := by
    apply find_range5_unique _ _ hi5
    · simp [hgot]
    · intro j hj5 hji
      rw [hother j hj5 hji]
      simpa using hnot j hj5
  have hwhichD : whichSideChildIsDocked (dockOp d side w ps) w = side := by
    rw [whichSideChildIsDocked, hfindD]
    exact sideFromIndex_sideIndex side hside
  have hmem : w ∈ (dockOp d side w ps).children := by
    rw [hDc]
    simp
  have hfind1 : (List.range 5).find?
      (fun i => decide (getSide { dockOp d side w ps with
        children := (dockOp d side w ps).children.erase w } i = some w))
      = some (sideIndex side) := hfindD
  have hUs : (undockOp (dockOp d side w ps) w).sides
      = (dockOp d side w ps).sides.set (sideIndex side) none := by
    simp only [undockOp]
    rw [if_pos hmem, hfind1]
    simp only [setSide]
  have hUc : (undockOp (dockOp d side w ps) w).children
      = (dockOp d side w ps).children.erase w := by
    simp only [undockOp]
    rw [if_pos hmem, hfind1]
    simp only [setSide]
  have hUside : ∀ j, j < 5 → getSide (undockOp (dockOp d side w ps) w) j
      = (if j = sideIndex side then none else getSide d j) := by
    intro j hj5
    rw [getSide, hUs, hDs, List.set_set]
    by_cases hji : j = sideIndex side
    · rw [if_pos hji, hji]
      exact getD_set_self _ _ _ _ (by omega)
    · rw [if_neg hji, getD_set_ne _ _ _ _ _ (fun h => hji h.symm)]
      rfl
  have hUchild : w ∉ (undockOp (dockOp d side w ps) w).children := by
    rw [hUc, hDc, List.erase_append_right _ hchild]
    simpa using hchild
  refine ⟨hwhichD, ?_, hUchild, ?_⟩
  · rw [hUside _ hi5, if_pos rfl]
  · rw [whichSideChildIsDocked, find_range5_none]
    intro j hj5
    rw [hUside j hj5]
    split_ifs <;> simp
    intro h
    exact hnot j hj5 h

/-- Witness for C7: dock a fresh widget at `LEFT` on an empty five-slot
node, then undock it. -/
theorem claim_C7_witness :
    whichSideChildIsDocked (dockOp ⟨[none, none, none, none, none], [0, 0, 0, 0, 0],
        [⟨0, 0⟩, ⟨0, 0⟩, ⟨0, 0⟩, ⟨0, 0⟩, ⟨0, 0⟩], []⟩ LEFT ⟨1, 10, 10, some 60⟩
        ⟨100, 100⟩) ⟨1, 10, 10, some 60⟩ = LEFT ∧
    getSide (undockOp (dockOp ⟨[none, none, none, none, none], [0, 0, 0, 0, 0],
        [⟨0, 0⟩, ⟨0, 0⟩, ⟨0, 0⟩, ⟨0, 0⟩, ⟨0, 0⟩], []⟩ LEFT ⟨1, 10, 10, some 60⟩
        ⟨100, 100⟩) ⟨1, 10, 10, some 60⟩) (sideIndex LEFT) = none ∧
    (⟨1, 10, 10, some 60⟩ : DWidget) ∉ (undockOp (dockOp ⟨[none, none, none, none, none],
        [0, 0, 0, 0, 0], [⟨0, 0⟩, ⟨0, 0⟩, ⟨0, 0⟩, ⟨0, 0⟩, ⟨0, 0⟩], []⟩ LEFT
        ⟨1, 10, 10, some 60⟩ ⟨100, 100⟩) ⟨1, 10, 10, some 60⟩).children ∧
    whichSideChildIsDocked (undockOp (dockOp ⟨[none, none, none, none, none],
        [0, 0, 0, 0, 0], [⟨0, 0⟩, ⟨0, 0⟩, ⟨0, 0⟩, ⟨0, 0⟩, ⟨0, 0⟩], []⟩ LEFT
        ⟨1, 10, 10, some 60⟩ ⟨100, 100⟩) ⟨1, 10, 10, some 60⟩) ⟨1, 10, 10, some 60⟩ = 0 :=
  claim_C7 ⟨[none, none, none, none, none], [0, 0, 0, 0, 0],
    [⟨0, 0⟩, ⟨0, 0⟩, ⟨0, 0⟩, ⟨0, 0⟩, ⟨0, 0⟩], []⟩ LEFT ⟨1, 10, 10, some 60⟩ ⟨100, 100⟩
    (by decide) (by decide) (by decide) (by decide) (by decide)

end Aseprite
